import Mathlib

/-!
Shallow embedding of the `monet` fixed-point money core (`src/lib.rs`,
`src/currency.rs`, `src/ops.rs`).  Rust `i128` values are modelled as
unbounded `Int`; Rust's truncating division `/` is `Int.tdiv` and `%` is
`Int.tmod` (both round toward zero, matching Rust's semantics).  Division
by zero, which panics in Rust, is total here (`Int.tdiv _ 0 = 0`); the
predicate `Op.divByZero` records exactly the divisions by zero the
evaluator would perform, so panic-freedom is a separate, explicit
statement.  Fallible Rust functions returning `Result` are modelled with
`Except`.
-/

namespace Monet

/-- How much `amount` makes a unit (`AMOUNT_UNIT` in `src/lib.rs`). -/
def AMOUNT_UNIT : Int := 1000000

/-- Rust `CurrencyAmount(i128)`: a scaled fixed-point amount (`src/lib.rs`). -/
structure CurrencyAmount where
  val : Int
deriving DecidableEq

/-- The derived `PartialEq` on `CurrencyAmount`: exact comparison of the
underlying `i128`. -/
def CurrencyAmount.peq (a b : CurrencyAmount) : Bool :=
  a.val == b.val

/-- Rust `CurrencyAmount::with_unit`. -/
def CurrencyAmount.with_unit (unit : Int) : CurrencyAmount :=
  ⟨unit * AMOUNT_UNIT⟩

/-- Rust `CurrencyAmount::with_cents`. -/
def CurrencyAmount.with_cents (cents : Int) : CurrencyAmount :=
  ⟨Int.tdiv (cents * AMOUNT_UNIT) 100⟩

/-- Rust `impl Add for CurrencyAmount`. -/
def CurrencyAmount.add (a b : CurrencyAmount) : CurrencyAmount :=
  ⟨a.val + b.val⟩

/-- Rust `impl Sub for CurrencyAmount`. -/
def CurrencyAmount.sub (a b : CurrencyAmount) : CurrencyAmount :=
  ⟨a.val - b.val⟩

/-- Rust `impl Mul for CurrencyAmount`. -/
def CurrencyAmount.mul (a b : CurrencyAmount) : CurrencyAmount :=
  ⟨a.val * b.val⟩

/-- Rust `impl Div for CurrencyAmount`: Rust `i128` division truncates toward
zero. -/
def CurrencyAmount.div (a b : CurrencyAmount) : CurrencyAmount :=
  ⟨Int.tdiv a.val b.val⟩

/-- Rust `CurrencyCode` with `code: [u8; 3]` (`src/currency.rs`); the three bytes
are modelled as natural numbers. -/
structure CurrencyCode where
  b0 : Nat
  b1 : Nat
  b2 : Nat
deriving DecidableEq

/-- Modelled from the spec: the error enum (`src/error.rs` is not among the
source files; §7 of the spec lists `MalformedCode(input)` and
`RateNotFound(code)`, matching the construction sites in
`src/currency.rs`).  `MalformedCode` carries the offending input (as its
byte sequence), `RateNotFound` the missing code. -/
inductive Error where
  | MalformedCode : List Nat → Error
  | RateNotFound : CurrencyCode → Error
deriving DecidableEq

/-- Rust `Exponent` with fields `amount`, `exponent` (`src/currency.rs`). -/
structure Exponent where
  amount : CurrencyAmount
  exponent : Nat
deriving DecidableEq

/-- Rust `impl PartialEq for Exponent` (`src/currency.rs`): compares
`self.amount / 10^self.exponent` with `other.amount / 10^other.exponent`
using the truncating `Div` of `CurrencyAmount`, then the derived
(field-wise) equality. -/
def Exponent.peq (a b : Exponent) : Bool :=
  CurrencyAmount.peq (a.amount.div ⟨10 ^ a.exponent⟩) (b.amount.div ⟨10 ^ b.exponent⟩)

/-- First-match association-list lookup, modelling `HashMap::get` of the
rate map (the spec guarantees no duplicate keys). -/
def lookupCode : List (CurrencyCode × CurrencyAmount) → CurrencyCode → Option CurrencyAmount
  | [], _ => none
  | (k, v) :: rest, c => if k = c then some v else lookupCode rest c

/-- Rust `Rates` holding `map: HashMap<CurrencyCode, CurrencyAmount>`
(`src/currency.rs`), the map modelled as an association list. -/
structure Rates where
  map : List (CurrencyCode × CurrencyAmount)

/-- Rust `Rates::worth`: the stored worth of a code, or `RateNotFound`. -/
def Rates.worth (r : Rates) (code : CurrencyCode) : Except Error CurrencyAmount :=
  match lookupCode r.map code with
  | some w => .ok w
  | none => .error (.RateNotFound code)

/-- Rust `impl TryFrom<&str> for CurrencyCode`: error unless the input is
exactly 3 bytes, else the three bytes verbatim.  The input string is
modelled as its byte sequence. -/
def CurrencyCode.try_from (s : List Nat) : Except Error CurrencyCode :=
  if h : s.length ≠ 3 then .error (.MalformedCode s)
  else .ok ⟨s.get ⟨0, by omega⟩, s.get ⟨1, by omega⟩, s.get ⟨2, by omega⟩⟩

/-- Rust `Money` with fields `amount`, `currency_code` (`src/lib.rs`). -/
structure Money where
  amount : CurrencyAmount
  currency_code : CurrencyCode
deriving DecidableEq

/-- Rust `Money::new`. -/
def Money.new (amount : CurrencyAmount) (currency_code : CurrencyCode) : Money :=
  ⟨amount, currency_code⟩

/-- Rust `Money::into_code`: fetch the worth of the current code, then of the
target code, and rescale `amount * worth_self / worth_new`. -/
def Money.into_code (m : Money) (code : CurrencyCode) (rates : Rates) : Except Error Money :=
  match rates.worth m.currency_code with
  | .error e => .error e
  | .ok worth_self =>
    match rates.worth code with
    | .error e => .error e
    | .ok worth_new => .ok (Money.new ((m.amount.mul worth_self).div worth_new) code)

/-- Rust `Money::with_str_code`. -/
def Money.with_str_code (amount : CurrencyAmount) (currency_code : List Nat) :
    Except Error Money :=
  match CurrencyCode.try_from currency_code with
  | .error e => .error e
  | .ok c => .ok (Money.new amount c)

/-- The operation tree of `src/ops.rs`: `Money` leaves, `Add`, `Sub`,
`Mul`, `Div` nodes (the operator-overload chaining builds exactly these
nodes). -/
inductive Op where
  | money : Money → Op
  | add : Op → Op → Op
  | sub : Op → Op → Op
  | mul : Op → Exponent → Op
  | div : Op → Exponent → Op

/-- Rust `Operation::execute` (`src/ops.rs`): `Money` evaluates to itself;
`Add`/`Sub` evaluate left then right, convert the right result into the
left result's currency code via `into_code`, and combine; `Mul`
multiplies by `exponent.amount` then divides by `10^exponent`; `Div`
multiplies by `10^exponent` then divides by `exponent.amount`.  The `?`
operator is the explicit error propagation of each `match`. -/
def Op.execute : Op → Rates → Except Error Money
  | .money m, _ => .ok m
  | .add a b, rates =>
    match a.execute rates with
    | .error e => .error e
    | .ok money_a =>
      match b.execute rates with
      | .error e => .error e
      | .ok money_b =>
        match money_b.into_code money_a.currency_code rates with
        | .error e => .error e
        | .ok conv => .ok (Money.new (money_a.amount.add conv.amount) money_a.currency_code)
  | .sub a b, rates =>
    match a.execute rates with
    | .error e => .error e
    | .ok money_a =>
      match b.execute rates with
      | .error e => .error e
      | .ok money_b =>
        match money_b.into_code money_a.currency_code rates with
        | .error e => .error e
        | .ok conv => .ok (Money.new (money_a.amount.sub conv.amount) money_a.currency_code)
  | .mul a e, rates =>
    match a.execute rates with
    | .error err => .error err
    | .ok money_a =>
      .ok (Money.new ((money_a.amount.mul e.amount).div ⟨10 ^ e.exponent⟩)
        money_a.currency_code)
  | .div a e, rates =>
    match a.execute rates with
    | .error err => .error err
    | .ok money_a =>
      .ok (Money.new ((money_a.amount.mul ⟨10 ^ e.exponent⟩).div e.amount)
        money_a.currency_code)

/-- Rust `i128::checked_div`: `none` when the divisor is zero (the
overflow case `MIN / -1` cannot arise with unbounded integers). -/
def checkedDiv (a b : Int) : Option Int :=
  if b = 0 then none else some (Int.tdiv a b)

/-- The three code bytes as a string, modelling
`TryFrom<&CurrencyCode> for &str` on ASCII codes. -/
def CurrencyCode.toStr (c : CurrencyCode) : String :=
  String.mk [Char.ofNat c.b0, Char.ofNat c.b1, Char.ofNat c.b2]

/-- Rust `impl fmt::Display for Money` (`src/lib.rs`) at a given active
precision (the default precision comes from an external ISO-4217 lookup,
so the precision is a parameter here): `units = amount / 10^6`,
`decimals = amount % 10^6`; with positive precision the rendered string
is `"<units>.<decimals / (AMOUNT_UNIT / 10^precision)> <code>"` where the
inner division is `checked_div` (its failure becomes `fmt::Error`);
with precision 0 the decimal point is omitted.  The sub-unit digits are
rendered with the plain integer formatter, exactly as the `write!` does. -/
def Money.fmtWith (m : Money) (precision : Nat) : Except Unit String :=
  let units := Int.tdiv m.amount.val AMOUNT_UNIT
  let decimals := Int.tmod m.amount.val AMOUNT_UNIT
  if precision > 0 then
    match checkedDiv decimals (Int.tdiv AMOUNT_UNIT (10 ^ precision)) with
    | none => .error ()
    | some d =>
      .ok (toString units ++ "." ++ toString d ++ " " ++ m.currency_code.toStr)
  else
    .ok (toString units ++ " " ++ m.currency_code.toStr)

/-! Concrete codes and rate tables used by concrete statements. -/

/-- The bytes of `"USD"`. -/
def usd : CurrencyCode := ⟨85, 83, 68⟩

/-- The bytes of `"CHF"`. -/
def chf : CurrencyCode := ⟨67, 72, 70⟩

/-- The bytes of `"EUR"`. -/
def eur : CurrencyCode := ⟨69, 85, 82⟩

/-- Claim C1 counterexample: the claim says two `CurrencyAmount`s compare
equal exactly when their truncated whole-unit quotients agree; at
`0` and `1` the quotients agree (`0 = 0`) yet the derived equality, which
compares the raw `i128`s, is false. -/
theorem C1_counterexample :
    ¬ (CurrencyAmount.peq ⟨0⟩ ⟨1⟩ = true ↔
      Int.tdiv 0 AMOUNT_UNIT = Int.tdiv 1 AMOUNT_UNIT) := by
  decide

/-- Claim C1, amended: equality of `CurrencyAmount` is the derived exact
comparison of the underlying scaled integer; the truncating comparison
lives on `Exponent`, whose `PartialEq` compares
`amount / 10^exponent` of each side (each side truncated by its own
scale), so two `Exponent`s that differ only below their scale compare
equal — e.g. at scale 6 any two amounts with the same whole-unit quotient
are equal. -/
theorem C1_equality_semantics :
    (∀ a b : CurrencyAmount, CurrencyAmount.peq a b = true ↔ a = b) ∧
    (∀ x y : Exponent, Exponent.peq x y = true ↔
      Int.tdiv x.amount.val (10 ^ x.exponent) = Int.tdiv y.amount.val (10 ^ y.exponent)) ∧
    (Exponent.peq ⟨⟨1000000⟩, 6⟩ ⟨⟨1000005⟩, 6⟩ = true) := by
  refine ⟨fun a b => ?_, fun x y => ?_, by decide⟩
  · cases a; cases b
    simp [CurrencyAmount.peq, CurrencyAmount.mk.injEq]
  · simp [Exponent.peq, CurrencyAmount.peq, CurrencyAmount.div]

/-- Claim C2 (code bug): at amount `21_050_000` and precision 2 the
`Display` implementation renders the fractional part with the plain
integer formatter, producing `"21.5 CHF"` instead of the zero-padded
`"21.05 CHF"` the display contract promises. -/
theorem C2_display_unpadded :
    Money.fmtWith (Money.new ⟨21050000⟩ chf) 2 = .ok "21.5 CHF" ∧
    ("21.5 CHF" : String) ≠ "21.05 CHF" := by
  exact ⟨rfl, by decide⟩

/-- Claim C5 counterexample: the claim promises `Ok(m)` whenever the rate
table merely contains an entry for `m`'s code, but a stored worth of `0`
breaks it: for `m = Money(1, USD)` and the table `{USD ↦ 0}` the
conversion divides by the zero worth (a division by zero, which panics in
Rust; in this total model the amount collapses to `0`), so `Ok(m)` is not
returned. -/
theorem C5_counterexample :
    (Rates.worth ⟨[(usd, ⟨0⟩)]⟩ usd = .ok ⟨0⟩) ∧
    Money.into_code (Money.new ⟨1⟩ usd) usd ⟨[(usd, ⟨0⟩)]⟩ ≠
      .ok (Money.new ⟨1⟩ usd) := by
  refine ⟨rfl, fun h => ?_⟩
  have h2 : (Money.new ⟨0⟩ usd) = (Money.new ⟨1⟩ usd) := by
    have h3 := h
    rw [show Money.into_code (Money.new ⟨1⟩ usd) usd ⟨[(usd, ⟨0⟩)]⟩ =
      .ok (Money.new ⟨0⟩ usd) from rfl] at h3
    exact Except.ok.inj h3
  simp [Money.new, CurrencyAmount.mk.injEq, Money.mk.injEq] at h2

/-- Claim C5, amended: self-conversion is the identity provided the rate
stored for `m`'s code is nonzero: if `worth(m.code) = Ok(w)` with
`w ≠ 0`, then `m.into_code(m.code, r) = Ok(m)`. -/
theorem C5_self_conversion_identity (m : Money) (r : Rates) (w : CurrencyAmount)
    (hw : r.worth m.currency_code = .ok w) (hnz : w.val ≠ 0) :
    m.into_code m.currency_code r = .ok m := by
  obtain ⟨⟨a⟩, c⟩ := m
  simp only [Money.into_code] at *
  rw [hw]
  simp [Money.new, CurrencyAmount.mul, CurrencyAmount.div,
    Int.mul_tdiv_cancel _ hnz]

/-- Witness for C5 at `m = Money(7, USD)`, `r = {USD ↦ 1_000_000}`. -/
theorem C5_witness :
    Money.into_code (Money.new ⟨7⟩ usd) usd ⟨[(usd, ⟨1000000⟩)]⟩ =
      .ok (Money.new ⟨7⟩ usd) :=
  C5_self_conversion_identity (Money.new ⟨7⟩ usd) ⟨[(usd, ⟨1000000⟩)]⟩
    ⟨1000000⟩ rfl (by decide)

/-- Claim C7: constructing a `CurrencyCode` from a string fails with
`MalformedCode(input)` exactly when the input is not 3 bytes long; every
3-byte input succeeds and the bytes are stored verbatim (so
`Money::with_str_code` succeeds with them); the 2-byte `"US"`
(bytes `[85, 83]`) fails with `MalformedCode`. -/
theorem C7_code_length_check :
    (∀ s : List Nat,
      CurrencyCode.try_from s = .error (.MalformedCode s) ↔ s.length ≠ 3) ∧
    (∀ a b c : Nat, ∀ amt : CurrencyAmount,
      Money.with_str_code amt [a, b, c] = .ok (Money.new amt ⟨a, b, c⟩)) ∧
    (∀ amt : CurrencyAmount,
      Money.with_str_code amt [85, 83] = .error (.MalformedCode [85, 83])) := by
  refine ⟨fun s => ?_, fun a b c amt => rfl, fun amt => rfl⟩
  unfold CurrencyCode.try_from
  split
  case isTrue h => simp [h]
  case isFalse h => simp [h]

/-- Claim C8: for every `Money` and every explicit precision above 6 the
`Display` implementation fails with a formatting error (the divisor
`AMOUNT_UNIT / 10^precision` truncates to zero and `checked_div` turns
that into `fmt::Error`) instead of producing a truncated string. -/
theorem C8_precision_gt6_fails (m : Money) (p : Nat) (h : 6 < p) :
    m.fmtWith p = .error () := by
  have hlt : (1000000 : Nat) < 10 ^ p :=
    calc (1000000 : Nat) < 10 ^ 7 := by norm_num
      _ ≤ 10 ^ p := Nat.pow_le_pow_right (by norm_num) h
  have hz : Int.tdiv AMOUNT_UNIT (10 ^ p) = 0 := by
    have hcast : Int.tdiv ((1000000 : Nat) : Int) (((10 ^ p : Nat)) : Int) =
        (((1000000 / 10 ^ p : Nat)) : Int) := rfl
    have hdiv : (1000000 : Nat) / 10 ^ p = 0 := Nat.div_eq_of_lt hlt
    rw [hdiv] at hcast
    have : AMOUNT_UNIT = ((1000000 : Nat) : Int) := rfl
    rw [this]
    push_cast at hcast ⊢
    exact hcast
  simp only [Money.fmtWith]
  rw [if_pos (by omega : p > 0)]
  simp [checkedDiv, hz]

/-- Witness for C8 at `Money(21_050_000, CHF)` and precision 7. -/
theorem C8_witness :
    Money.fmtWith (Money.new ⟨21050000⟩ chf) 7 = .error () :=
  C8_precision_gt6_fails (Money.new ⟨21050000⟩ chf) 7 (by decide)

/-- Claim C9: adding or subtracting two `Money` values of the same
currency code still consults the rate table: when the table has no entry
for the shared code, both `Add` and `Sub` evaluate to
`Err(RateNotFound(code))` instead of combining the amounts directly. -/
theorem C9_same_code_consults_rates (a b : Money) (r : Rates)
    (hcode : b.currency_code = a.currency_code)
    (hmiss : lookupCode r.map a.currency_code = none) :
    (Op.add (.money a) (.money b)).execute r = .error (.RateNotFound a.currency_code) ∧
    (Op.sub (.money a) (.money b)).execute r = .error (.RateNotFound a.currency_code) := by
  constructor <;>
    simp [Op.execute, Money.into_code, Rates.worth, hcode, hmiss]

/-- Witness for C9 with both operands in USD and an empty rate table. -/
theorem C9_witness :
    (Op.add (.money (Money.new ⟨1⟩ usd)) (.money (Money.new ⟨2⟩ usd))).execute ⟨[]⟩ =
      .error (.RateNotFound usd) ∧
    (Op.sub (.money (Money.new ⟨1⟩ usd)) (.money (Money.new ⟨2⟩ usd))).execute ⟨[]⟩ =
      .error (.RateNotFound usd) :=
  C9_same_code_consults_rates (Money.new ⟨1⟩ usd) (Money.new ⟨2⟩ usd) ⟨[]⟩ rfl rfl

/-- Claim C3: whenever `(a + b).execute(r)` succeeds, the result's amount
is `a`'s evaluated amount plus `b`'s evaluated amount rescaled by
`worth(b.code) / worth(a.code)` (computed as
`amount * worth(b.code) / worth(a.code)` with truncating division), and
the result's currency code is the left operand's, whatever `b`'s currency
is. -/
theorem C3_add_left_currency (a b : Op) (r : Rates) (m : Money)
    (h : (Op.add a b).execute r = .ok m) :
    ∃ ma mb wa wb, a.execute r = .ok ma ∧ b.execute r = .ok mb ∧
      r.worth mb.currency_code = .ok wb ∧ r.worth ma.currency_code = .ok wa ∧
      m = Money.new (ma.amount.add ((mb.amount.mul wb).div wa)) ma.currency_code := by
  cases hea : a.execute r with
  | error e => simp [Op.execute, hea] at h
  | ok ma =>
    cases heb : b.execute r with
    | error e => simp [Op.execute, hea, heb] at h
    | ok mb =>
      cases hw1 : r.worth mb.currency_code with
      | error e => simp [Op.execute, Money.into_code, hea, heb, hw1] at h
      | ok wb =>
        cases hw2 : r.worth ma.currency_code with
        | error e => simp [Op.execute, Money.into_code, hea, heb, hw1, hw2] at h
        | ok wa =>
          simp only [Op.execute, Money.into_code, hea, heb, hw1, hw2] at h
          exact ⟨ma, mb, wa, wb, rfl, rfl, hw1, hw2, (Except.ok.inj h).symm⟩

/-- Witness for C3: `CHF 2_000_000 + USD 1_000_000` against
`{USD ↦ 1_000_000, CHF ↦ 1_100_000}` succeeds (the sum is
`CHF 2_909_090` after the truncating conversion). -/
theorem C3_witness :
    ∃ ma mb wa wb,
      (Op.money (Money.new ⟨2000000⟩ chf)).execute
        ⟨[(usd, ⟨1000000⟩), (chf, ⟨1100000⟩)]⟩ = .ok ma ∧
      (Op.money (Money.new ⟨1000000⟩ usd)).execute
        ⟨[(usd, ⟨1000000⟩), (chf, ⟨1100000⟩)]⟩ = .ok mb ∧
      Rates.worth ⟨[(usd, ⟨1000000⟩), (chf, ⟨1100000⟩)]⟩ mb.currency_code = .ok wb ∧
      Rates.worth ⟨[(usd, ⟨1000000⟩), (chf, ⟨1100000⟩)]⟩ ma.currency_code = .ok wa ∧
      Money.new ⟨2909090⟩ chf =
        Money.new (ma.amount.add ((mb.amount.mul wb).div wa)) ma.currency_code :=
  C3_add_left_currency (Op.money (Money.new ⟨2000000⟩ chf))
    (Op.money (Money.new ⟨1000000⟩ usd)) ⟨[(usd, ⟨1000000⟩), (chf, ⟨1100000⟩)]⟩
    (Money.new ⟨2909090⟩ chf) rfl

/-- Claim C6: for `Money` values `a`, `b` whose currency codes both have
rates in `r`, `((a + b) - b).execute(r)` equals `a.execute(r)` — in fact
exactly, because the subtraction re-computes the very same truncated
conversion of `b` that the addition used, so it cancels without any
rounding residue. -/
theorem C6_add_sub_cancel (a b : Money) (r : Rates) (wa wb : CurrencyAmount)
    (ha : r.worth a.currency_code = .ok wa) (hb : r.worth b.currency_code = .ok wb) :
    (Op.sub (Op.add (.money a) (.money b)) (.money b)).execute r =
      (Op.money a).execute r := by
  obtain ⟨⟨x⟩, ca⟩ := a
  obtain ⟨⟨y⟩, cb⟩ := b
  simp only [Money.new] at ha hb
  simp [Op.execute, Money.into_code, Money.new, ha, hb,
    CurrencyAmount.add, CurrencyAmount.sub, CurrencyAmount.mul, CurrencyAmount.div]

/-- Witness for C6 at `a = CHF 5`, `b = USD 7`,
`r = {USD ↦ 1_000_000, CHF ↦ 1_100_000}`. -/
theorem C6_witness :
    (Op.sub (Op.add (.money (Money.new ⟨5⟩ chf)) (.money (Money.new ⟨7⟩ usd)))
        (.money (Money.new ⟨7⟩ usd))).execute
      ⟨[(usd, ⟨1000000⟩), (chf, ⟨1100000⟩)]⟩ =
    (Op.money (Money.new ⟨5⟩ chf)).execute
      ⟨[(usd, ⟨1000000⟩), (chf, ⟨1100000⟩)]⟩ :=
  C6_add_sub_cancel (Money.new ⟨5⟩ chf) (Money.new ⟨7⟩ usd)
    ⟨[(usd, ⟨1000000⟩), (chf, ⟨1100000⟩)]⟩ ⟨1100000⟩ ⟨1000000⟩ rfl rfl

/-- The currency code an operation's result carries when evaluation
succeeds: the code of the left-most `Money` leaf (every node keeps its
left operand's code). -/
def Op.retCode : Op → CurrencyCode
  | .money m => m.currency_code
  | .add a _ => a.retCode
  | .sub a _ => a.retCode
  | .mul a _ => a.retCode
  | .div a _ => a.retCode

/-- The missing code (if any) of one conversion step, in the order
`into_code` performs its lookups: the source code first, then the target
code. -/
def convMissing (r : Rates) (src tgt : CurrencyCode) : Option CurrencyCode :=
  match lookupCode r.map src with
  | none => some src
  | some _ =>
    match lookupCode r.map tgt with
    | none => some tgt
    | some _ =>  none

/-- The first currency code that evaluating `op` against `r` needs but
`r` lacks, following the evaluator's depth-first, left-to-right order:
for `Add`/`Sub`, first whatever the left subtree needs, then the right
subtree, then the conversion of the right result (its code, then the left
result's code); `Mul`/`Div` consult no rates of their own. -/
def Op.firstMissing : Op → Rates → Option CurrencyCode
  | .money _, _ => none
  | .add a b, r =>
    match a.firstMissing r with
    | some c => some c
    | none =>
      match b.firstMissing r with
      | some c => some c
      | none => convMissing r b.retCode a.retCode
  | .sub a b, r =>
    match a.firstMissing r with
    | some c => some c
    | none =>
      match b.firstMissing r with
      | some c => some c
      | none => convMissing r b.retCode a.retCode
  | .mul a _, r => a.firstMissing r
  | .div a _, r => a.firstMissing r

/-- A successful evaluation's currency code is `Op.retCode`. -/
theorem execute_retCode (op : Op) (r : Rates) :
    ∀ m : Money, op.execute r = .ok m → m.currency_code = op.retCode := by
  induction op with
  | money m0 =>
    intro m h
    cases Except.ok.inj h
    rfl
  | add a b iha ihb =>
    intro m h
    cases hea : a.execute r with
    | error e => simp [Op.execute, hea] at h
    | ok ma =>
      cases heb : b.execute r with
      | error e => simp [Op.execute, hea, heb] at h
      | ok mb =>
        cases hw1 : r.worth mb.currency_code with
        | error e => simp [Op.execute, Money.into_code, hea, heb, hw1] at h
        | ok wb =>
          cases hw2 : r.worth ma.currency_code with
          | error e => simp [Op.execute, Money.into_code, hea, heb, hw1, hw2] at h
          | ok wa =>
            simp only [Op.execute, Money.into_code, hea, heb, hw1, hw2] at h
            cases Except.ok.inj h
            exact iha ma hea
  | sub a b iha ihb =>
    intro m h
    cases hea : a.execute r with
    | error e => simp [Op.execute, hea] at h
    | ok ma =>
      cases heb : b.execute r with
      | error e => simp [Op.execute, hea, heb] at h
      | ok mb =>
        cases hw1 : r.worth mb.currency_code with
        | error e => simp [Op.execute, Money.into_code, hea, heb, hw1] at h
        | ok wb =>
          cases hw2 : r.worth ma.currency_code with
          | error e => simp [Op.execute, Money.into_code, hea, heb, hw1, hw2] at h
          | ok wa =>
            simp only [Op.execute, Money.into_code, hea, heb, hw1, hw2] at h
            cases Except.ok.inj h
            exact iha ma hea
  | mul a e iha =>
    intro m h
    cases hea : a.execute r with
    | error e2 => simp [Op.execute, hea] at h
    | ok ma =>
      simp only [Op.execute, hea] at h
      cases Except.ok.inj h
      exact iha ma hea
  | div a e iha =>
    intro m h
    cases hea : a.execute r with
    | error e2 => simp [Op.execute, hea] at h
    | ok ma =>
      simp only [Op.execute, hea] at h
      cases Except.ok.inj h
      exact iha ma hea

/-- Evaluation either succeeds with no missing rate, or fails with
`RateNotFound` at exactly the first missing code in evaluation order. -/
theorem execute_vs_firstMissing (op : Op) (r : Rates) :
    (∃ m, op.execute r = .ok m ∧ op.firstMissing r = none) ∨
    (∃ c, op.execute r = .error (.RateNotFound c) ∧ op.firstMissing r = some c) := by
  induction op with
  | money m => exact .inl ⟨m, rfl, rfl⟩
  | add a b iha ihb =>
    rcases iha with ⟨ma, hea, hfa⟩ | ⟨c, hea, hfa⟩
    · rcases ihb with ⟨mb, heb, hfb⟩ | ⟨c, heb, hfb⟩
      · have hca := execute_retCode a r ma hea
        have hcb := execute_retCode b r mb heb
        cases hl1 : lookupCode r.map mb.currency_code with
        | none =>
          refine .inr ⟨mb.currency_code, ?_, ?_⟩
          · simp [Op.execute, hea, heb, Money.into_code, Rates.worth, hl1]
          · have hl1b : lookupCode r.map b.retCode = none := by
              rw [← hcb]; exact hl1
            simp [Op.firstMissing, hfa, hfb, convMissing, hl1b, hcb]
        | some wb =>
          have hl1b : lookupCode r.map b.retCode = some wb := by
            rw [← hcb]; exact hl1
          cases hl2 : lookupCode r.map ma.currency_code with
          | none =>
            refine .inr ⟨ma.currency_code, ?_, ?_⟩
            · simp [Op.execute, hea, heb, Money.into_code, Rates.worth, hl1, hl2]
            · have hl2b : lookupCode r.map a.retCode = none := by
                rw [← hca]; exact hl2
              simp [Op.firstMissing, hfa, hfb, convMissing, hl1b, hl2b, hca]
          | some wa =>
            refine .inl
              ⟨Money.new (ma.amount.add ((mb.amount.mul wb).div wa)) ma.currency_code,
                ?_, ?_⟩
            · simp [Op.execute, hea, heb, Money.into_code, Rates.worth, hl1, hl2,
                Money.new]
            · have hl2b : lookupCode r.map a.retCode = some wa := by
                rw [← hca]; exact hl2
              simp [Op.firstMissing, hfa, hfb, convMissing, hl1b, hl2b]
      · exact .inr ⟨c, by simp [Op.execute, hea, heb],
          by simp [Op.firstMissing, hfa, hfb]⟩
    · exact .inr ⟨c, by simp [Op.execute, hea], by simp [Op.firstMissing, hfa]⟩
  | sub a b iha ihb =>
    rcases iha with ⟨ma, hea, hfa⟩ | ⟨c, hea, hfa⟩
    · rcases ihb with ⟨mb, heb, hfb⟩ | ⟨c, heb, hfb⟩
      · have hca := execute_retCode a r ma hea
        have hcb := execute_retCode b r mb heb
        cases hl1 : lookupCode r.map mb.currency_code with
        | none =>
          refine .inr ⟨mb.currency_code, ?_, ?_⟩
          · simp [Op.execute, hea, heb, Money.into_code, Rates.worth, hl1]
          · have hl1b : lookupCode r.map b.retCode = none := by
              rw [← hcb]; exact hl1
            simp [Op.firstMissing, hfa, hfb, convMissing, hl1b, hcb]
        | some wb =>
          have hl1b : lookupCode r.map b.retCode = some wb := by
            rw [← hcb]; exact hl1
          cases hl2 : lookupCode r.map ma.currency_code with
          | none =>
            refine .inr ⟨ma.currency_code, ?_, ?_⟩
            · simp [Op.execute, hea, heb, Money.into_code, Rates.worth, hl1, hl2]
            · have hl2b : lookupCode r.map a.retCode = none := by
                rw [← hca]; exact hl2
              simp [Op.firstMissing, hfa, hfb, convMissing, hl1b, hl2b, hca]
          | some wa =>
            refine .inl
              ⟨Money.new (ma.amount.sub ((mb.amount.mul wb).div wa)) ma.currency_code,
                ?_, ?_⟩
            · simp [Op.execute, hea, heb, Money.into_code, Rates.worth, hl1, hl2,
                Money.new]
            · have hl2b : lookupCode r.map a.retCode = some wa := by
                rw [← hca]; exact hl2
              simp [Op.firstMissing, hfa, hfb, convMissing, hl1b, hl2b]
      · exact .inr ⟨c, by simp [Op.execute, hea, heb],
          by simp [Op.firstMissing, hfa, hfb]⟩
    · exact .inr ⟨c, by simp [Op.execute, hea], by simp [Op.firstMissing, hfa]⟩
  | mul a e iha =>
    rcases iha with ⟨ma, hea, hfa⟩ | ⟨c, hea, hfa⟩
    · exact .inl ⟨Money.new ((ma.amount.mul e.amount).div ⟨10 ^ e.exponent⟩)
        ma.currency_code, by simp [Op.execute, hea], by simp [Op.firstMissing, hfa]⟩
    · exact .inr ⟨c, by simp [Op.execute, hea], by simp [Op.firstMissing, hfa]⟩
  | div a e iha =>
    rcases iha with ⟨ma, hea, hfa⟩ | ⟨c, hea, hfa⟩
    · exact .inl ⟨Money.new ((ma.amount.mul ⟨10 ^ e.exponent⟩).div e.amount)
        ma.currency_code, by simp [Op.execute, hea], by simp [Op.firstMissing, hfa]⟩
    · exact .inr ⟨c, by simp [Op.execute, hea], by simp [Op.firstMissing, hfa]⟩

/-- Claim C4: an evaluation returns `Err(RateNotFound(c))` exactly when
`c` is the first code, in depth-first left-to-right evaluation order
(`Op.firstMissing`), that the required conversions need and the rate
table lacks.  The evaluator only borrows the rate table
(`Rates.worth` reads it and `execute` threads it unchanged), so no input
is mutated. -/
theorem C4_first_missing_rate (op : Op) (r : Rates) (c : CurrencyCode) :
    op.execute r = .error (.RateNotFound c) ↔ op.firstMissing r = some c := by
  rcases execute_vs_firstMissing op r with ⟨m, he, hf⟩ | ⟨c2, he, hf⟩
  · constructor
    · intro h
      rw [h] at he
      cases he
    · intro h
      rw [hf] at h
      cases h
  · constructor
    · intro h
      rw [h] at he
      have hc : c = c2 := by
        have h2 := Except.error.inj he
        cases h2
        rfl
      rw [hc]
      exact hf
    · intro h
      rw [hf] at h
      have hc : c2 = c := Option.some.inj h
      rw [← hc]
      exact he

/-- Whether the division inside `Money::into_code` (by the worth of the
target code) would be a division by zero: both worths are found and the
target's worth is `0`. -/
def Money.intoCodeDivByZero (m : Money) (code : CurrencyCode) (r : Rates) : Bool :=
  match r.worth m.currency_code with
  | .error _ => false
  | .ok _ =>
    match r.worth code with
    | .error _ => false
    | .ok w => w.val == 0

/-- Whether evaluating `op` against `r` performs a division by zero
(which panics in Rust), following the evaluator's order and
short-circuiting: `Add`/`Sub` divide by the worth of the left result's
code inside `into_code`; `Mul` divides by `10^exponent`, never zero;
`Div` divides by `exponent.amount`. -/
def Op.divByZero : Op → Rates → Bool
  | .money _, _ => false
  | .add a b, r =>
    a.divByZero r ||
    match a.execute r with
    | .error _ => false
    | .ok ma =>
      b.divByZero r ||
      match b.execute r with
      | .error _ => false
      | .ok mb => mb.intoCodeDivByZero ma.currency_code r
  | .sub a b, r =>
    a.divByZero r ||
    match a.execute r with
    | .error _ => false
    | .ok ma =>
      b.divByZero r ||
      match b.execute r with
      | .error _ => false
      | .ok mb => mb.intoCodeDivByZero ma.currency_code r
  | .mul a _, r => a.divByZero r
  | .div a e, r =>
    a.divByZero r ||
    match a.execute r with
    | .error _ => false
    | .ok _ => e.amount.val == 0

/-- Every `Div` node's `Exponent` amount in the tree is nonzero. -/
def Op.noZeroDivExp : Op → Bool
  | .money _ => true
  | .add a b => a.noZeroDivExp && b.noZeroDivExp
  | .sub a b => a.noZeroDivExp && b.noZeroDivExp
  | .mul a _ => a.noZeroDivExp
  | .div a e => a.noZeroDivExp && !(e.amount.val == 0)

/-- Whether the worth `r` stores for `c`, if any, is nonzero.  A missing
code yields `true` vacuously: its failed lookup aborts the evaluation
before any division, so no worth is consulted there. -/
def worthNonzeroIfFound (r : Rates) (c : CurrencyCode) : Bool :=
  match r.worth c with
  | .error _ => true
  | .ok w => !(w.val == 0)

/-- Every worth the evaluation of `op` against `r` actually consults is
nonzero, following the evaluator's depth-first, left-to-right,
short-circuiting order: `Add`/`Sub` consult their subtrees' worths and
then, when both subtrees succeed, the worth of the right result's code
and (when that one is found) the worth of the left result's code;
`Mul`/`Div` consult only what their subtree consults.  This is weaker
than asking every worth stored in the table to be nonzero: entries the
evaluation never touches are unconstrained. -/
def Op.consultedWorthsNonzero : Op → Rates → Bool
  | .money _, _ => true
  | .add a b, r =>
    a.consultedWorthsNonzero r &&
    match a.execute r with
    | .error _ => true
    | .ok ma =>
      b.consultedWorthsNonzero r &&
      match b.execute r with
      | .error _ => true
      | .ok mb =>
        worthNonzeroIfFound r mb.currency_code &&
        match r.worth mb.currency_code with
        | .error _ => true
        | .ok _ => worthNonzeroIfFound r ma.currency_code
  | .sub a b, r =>
    a.consultedWorthsNonzero r &&
    match a.execute r with
    | .error _ => true
    | .ok ma =>
      b.consultedWorthsNonzero r &&
      match b.execute r with
      | .error _ => true
      | .ok mb =>
        worthNonzeroIfFound r mb.currency_code &&
        match r.worth mb.currency_code with
        | .error _ => true
        | .ok _ => worthNonzeroIfFound r ma.currency_code
  | .mul a _, r => a.consultedWorthsNonzero r
  | .div a _, r => a.consultedWorthsNonzero r

/-- Claim C10: evaluation divides without a guard — (i) for every leaf
and rate table there is an `Exponent` with zero amount making `Div`
divide by zero; (ii) `into_code` divides by the worth of the target code,
so a table mapping the target code to `0` makes it divide by zero (here:
converting EUR into USD with `{USD ↦ 0, EUR ↦ 1_000_000}`); (iii) when
every `Div` exponent amount in the tree is nonzero and every worth the
evaluation actually consults is nonzero, no division by zero occurs
(worths stored for codes the evaluation never touches may be zero). -/
theorem C10_division_by_zero :
    (∀ (m : Money) (r : Rates), ∃ e : Exponent, e.amount.val = 0 ∧
      (Op.div (.money m) e).divByZero r = true) ∧
    ((Money.new ⟨1000000⟩ eur).intoCodeDivByZero usd
      ⟨[(usd, ⟨0⟩), (eur, ⟨1000000⟩)]⟩ = true) ∧
    (∀ (op : Op) (r : Rates), op.noZeroDivExp = true →
      op.consultedWorthsNonzero r = true → op.divByZero r = false) := by
  refine ⟨fun m r => ⟨⟨⟨0⟩, 0⟩, rfl, by simp [Op.divByZero, Op.execute]⟩, rfl,
    fun op r hop hr => ?_⟩
  induction op with
  | money m => rfl
  | add a b iha ihb =>
    simp only [Op.noZeroDivExp, Bool.and_eq_true] at hop
    simp only [Op.consultedWorthsNonzero, Bool.and_eq_true] at hr
    obtain ⟨hr1, hr2⟩ := hr
    simp only [Op.divByZero, iha hop.1 hr1, Bool.false_or]
    cases hea : a.execute r with
    | error e => rfl
    | ok ma =>
      rw [hea] at hr2
      simp only [Bool.and_eq_true] at hr2
      obtain ⟨hr3, hr4⟩ := hr2
      simp only [ihb hop.2 hr3, Bool.false_or]
      cases heb : b.execute r with
      | error e => rfl
      | ok mb =>
        rw [heb] at hr4
        simp only [Bool.and_eq_true] at hr4
        obtain ⟨hr5, hr6⟩ := hr4
        simp only [Money.intoCodeDivByZero]
        cases hw1 : r.worth mb.currency_code with
        | error e => rfl
        | ok w1 =>
          rw [hw1] at hr6
          cases hw2 : r.worth ma.currency_code with
          | error e => rfl
          | ok w2 =>
            simp only [worthNonzeroIfFound, hw2] at hr6
            simpa using hr6
  | sub a b iha ihb =>
    simp only [Op.noZeroDivExp, Bool.and_eq_true] at hop
    simp only [Op.consultedWorthsNonzero, Bool.and_eq_true] at hr
    obtain ⟨hr1, hr2⟩ := hr
    simp only [Op.divByZero, iha hop.1 hr1, Bool.false_or]
    cases hea : a.execute r with
    | error e => rfl
    | ok ma =>
      rw [hea] at hr2
      simp only [Bool.and_eq_true] at hr2
      obtain ⟨hr3, hr4⟩ := hr2
      simp only [ihb hop.2 hr3, Bool.false_or]
      cases heb : b.execute r with
      | error e => rfl
      | ok mb =>
        rw [heb] at hr4
        simp only [Bool.and_eq_true] at hr4
        obtain ⟨hr5, hr6⟩ := hr4
        simp only [Money.intoCodeDivByZero]
        cases hw1 : r.worth mb.currency_code with
        | error e => rfl
        | ok w1 =>
          rw [hw1] at hr6
          cases hw2 : r.worth ma.currency_code with
          | error e => rfl
          | ok w2 =>
            simp only [worthNonzeroIfFound, hw2] at hr6
            simpa using hr6
  | mul a e iha =>
    simp only [Op.noZeroDivExp] at hop
    simp only [Op.consultedWorthsNonzero] at hr
    simp only [Op.divByZero]
    exact iha hop hr
  | div a e iha =>
    simp only [Op.noZeroDivExp, Bool.and_eq_true] at hop
    simp only [Op.consultedWorthsNonzero] at hr
    simp only [Op.divByZero, iha hop.1 hr, Bool.false_or]
    cases hea : a.execute r with
    | error e2 => rfl
    | ok ma =>
      have := hop.2
      simp only [Bool.not_eq_eq_eq_not, Bool.not_true] at this
      exact this

/-- Witness for C10's guarded part: a USD-only tree with a nonzero `Div`
exponent amount, evaluated against `{USD ↦ 1_000_000, EUR ↦ 0}` —
a table that does store a zero worth, but for a code the evaluation
never consults — performs no division by zero. -/
theorem C10_witness :
    (Op.div (Op.add (.money (Money.new ⟨1000000⟩ usd))
      (.money (Money.new ⟨2000000⟩ usd))) ⟨⟨2⟩, 0⟩).noZeroDivExp = true ∧
    (Op.div (Op.add (.money (Money.new ⟨1000000⟩ usd))
      (.money (Money.new ⟨2000000⟩ usd))) ⟨⟨2⟩, 0⟩).consultedWorthsNonzero
      ⟨[(usd, ⟨1000000⟩), (eur, ⟨0⟩)]⟩ = true ∧
    (Op.div (Op.add (.money (Money.new ⟨1000000⟩ usd))
      (.money (Money.new ⟨2000000⟩ usd))) ⟨⟨2⟩, 0⟩).divByZero
      ⟨[(usd, ⟨1000000⟩), (eur, ⟨0⟩)]⟩ = false :=
  ⟨by decide, by decide,
    C10_division_by_zero.2.2
      (Op.div (Op.add (.money (Money.new ⟨1000000⟩ usd))
        (.money (Money.new ⟨2000000⟩ usd))) ⟨⟨2⟩, 0⟩)
      ⟨[(usd, ⟨1000000⟩), (eur, ⟨0⟩)]⟩ (by decide) (by decide)⟩

end Monet
